import Mathlib

/-!
# Health endpoint servers (Bun and Node.js variants)

A shallow embedding of the two request handlers of the repository
(`nlp/cmd/testbun/server.js` and `nlp/cmd/testnodejs/server.js`), of the
start-up code around them, and of the path component computed by the two
URL parsers the handlers call.

* The handlers (`Bun.fetch`, `Node.healthHandler`, `Node.requestListener`)
  and the start-up code are translated from the two source files. They take
  the URL parser as an argument, so every statement about the dispatch logic
  holds for whatever the run-time library does.
* The two URL parsers are library code of the run times and not part of the
  repository. `WHATWG.newURL` and `Legacy.urlParse` are executable models of
  the part of `new URL(..)` and of `url.parse(..)` that determines
  `pathname`; statements that speak about concrete request targets are made
  against these models.
-/

namespace HealthServer

/-! ## Data model -/

/-- Header list of a message: name and value pairs, in order. -/
abbrev Headers := List (String × String)

/-- What a handler hands back to the HTTP layer: body, status and headers. -/
structure Response where
  body : String
  status : Nat
  headers : Headers
  deriving DecidableEq, Repr

/-- The request object a handler receives (`req`). Only `method` and `url`
are read by the code; header and body are carried so that statements can
vary them. -/
structure Request where
  method : String
  url : String
  headers : Headers
  body : String
  deriving DecidableEq, Repr

/-- The object returned by `new URL(..)`, restricted to the property the code
reads. -/
structure URL where
  pathname : String
  deriving DecidableEq, Repr

/-- The object returned by `url.parse(..)`, restricted to the property the
code reads. `pathname` is `null` (here `none`) when the input has no path. -/
structure UrlObject where
  pathname : Option String
  deriving DecidableEq, Repr

/-! ## Bun variant: `nlp/cmd/testbun/server.js` -/

namespace Bun

/-- The `fetch(req)` handler given to `Bun.serve`. `newURL` stands for the
`URL` constructor; when it gives no URL object (the constructor threw), no
`Response` is returned by this call. -/
def fetch (newURL : String → Option URL) (req : Request) : Option Response :=
  match newURL req.url with
  | none => none
  | some url =>
    -- Exact match for "/health"
    if url.pathname = "/health" ∧ req.method = "GET" then
      some { body := "OK\n", status := 200,
             headers := [("Content-Type", "text/plain")] }
    else
      -- Default 404
      some { body := "Not Found\n", status := 404,
             headers := [("Content-Type", "text/plain")] }

end Bun

/-! ## Node.js variant: `nlp/cmd/testnodejs/server.js` -/

namespace Node

/-- A call made on the `res` object. -/
inductive ResCall where
  | writeHead (statusCode : Nat) (headers : Headers)
  | end_ (data : String)
  deriving DecidableEq, Repr

/-- The `res` object, as the ordered record of the calls made on it. -/
structure ServerResponse where
  calls : List ResCall
  deriving DecidableEq, Repr

/-- The call `res.writeHead(statusCode, headers)`. -/
def ServerResponse.writeHead (res : ServerResponse) (statusCode : Nat)
    (headers : Headers) : ServerResponse :=
  { calls := res.calls ++ [ResCall.writeHead statusCode headers] }

/-- The call `res.end(data)`. -/
def ServerResponse.end_ (res : ServerResponse) (data : String) : ServerResponse :=
  { calls := res.calls ++ [ResCall.end_ data] }

/-- A `res` object on which nothing has been called yet. -/
def ServerResponse.fresh : ServerResponse := { calls := [] }

/-- The response put on the wire by a `res` object that saw exactly one
`writeHead` followed by exactly one `end`; `none` for any other call record
(no response, an unfinished one, or more than one). -/
def ServerResponse.sent (res : ServerResponse) : Option Response :=
  match res.calls with
  | [ResCall.writeHead statusCode headers, ResCall.end_ data] =>
    some { body := data, status := statusCode, headers := headers }
  | _ => none

/-- The function `healthHandler(req, res)`. -/
def healthHandler (_req : Request) (res : ServerResponse) : ServerResponse :=
  (res.writeHead 200 [("Content-Type", "text/plain")]).end_ "OK\n"

/-- The callback given to `http.createServer`. `urlParse` stands for
`url.parse`; when it gives no URL object (the call threw), the callback makes
no call on `res`. -/
def requestListener (urlParse : String → Bool → Option UrlObject)
    (req : Request) (res : ServerResponse) : Option ServerResponse :=
  match urlParse req.url true with
  | none => none
  | some parsedUrl =>
    -- Exact route match
    if req.method = "GET" ∧ parsedUrl.pathname = some "/health" then
      some (healthHandler req res)
    else
      -- Fallback 404
      some ((res.writeHead 404 [("Content-Type", "text/plain")]).end_ "Not Found\n")

end Node

/-! ## The path component computed by `new URL(..)`

The `URL` constructor belongs to the run time, not to the repository, and the
specification only says that the path is taken from the request URL with the
query string ignored. The definitions of this section model the algorithm
behind the constructor, the basic URL parser of the URL Standard called
without a base, for absolute `http:` and `https:` URLs whose authority is a
plain host name with an optional port. This is the shape of `req.url` in the
`fetch` handler. Only the path is computed; query and fragment are skipped.
On any other input the model yields `none`: either the constructor throws
there (no scheme, empty host, port out of range) or the input lies outside
the part modelled here (other schemes, credentials, numeric or non-letter
hosts). -/

namespace WHATWG

/-- A C0 control or space: U+0000 to U+0020. -/
def isC0ControlOrSpace (c : Char) : Bool := decide (c.toNat ≤ 0x20)

/-- An ASCII tab or newline: U+0009, U+000A, U+000D. -/
def isTabOrNewline (c : Char) : Bool :=
  decide (c.toNat = 0x09 ∨ c.toNat = 0x0A ∨ c.toNat = 0x0D)

/-- Remove trailing characters that satisfy `p`. -/
def dropTrailing (p : Char → Bool) (cs : List Char) : List Char :=
  ((cs.reverse).dropWhile p).reverse

/-- Input preparation of the parser: leading and trailing C0 controls and
spaces are removed, then every ASCII tab or newline. -/
def stripInput (cs : List Char) : List Char :=
  (dropTrailing isC0ControlOrSpace (cs.dropWhile isC0ControlOrSpace)).filter
    (fun c => !isTabOrNewline c)

/-- Upper-case hexadecimal digit of a value below 16. -/
def hexDigit (n : Nat) : Char :=
  if n < 10 then Char.ofNat (48 + n) else Char.ofNat (55 + n)

/-- Percent-encoding of one byte: `%` and two upper-case hexadecimal digits. -/
def percentEncodeByte (b : UInt8) : List Char :=
  ['%', hexDigit (b.toNat / 16), hexDigit (b.toNat % 16)]

/-- The path percent-encode set: C0 controls, everything above U+007E, space,
the double quote, `#`, `<`, `>`, `?`, `^`, the backtick, and the two braces. -/
def inPathPercentEncodeSet (c : Char) : Bool :=
  decide (c.toNat ≤ 0x1F ∨ 0x7E < c.toNat ∨
    c.toNat ∈ [0x20, 0x22, 0x23, 0x3C, 0x3E, 0x3F, 0x5E, 0x60, 0x7B, 0x7D])

/-- UTF-8 percent-encoding of a code point using the path percent-encode
set. -/
def percentEncode (c : Char) : List Char :=
  if inPathPercentEncodeSet c then
    (String.utf8EncodeChar c).flatMap percentEncodeByte
  else [c]

/-- A single-dot URL path segment: `.` or `%2e`, ASCII case-insensitively. -/
def isSingleDot (buffer : List Char) : Bool :=
  let b := buffer.map Char.toLower
  decide (b = ['.'] ∨ b = ['%', '2', 'e'])

/-- A double-dot URL path segment: `..`, `.%2e`, `%2e.` or `%2e%2e`, ASCII
case-insensitively. -/
def isDoubleDot (buffer : List Char) : Bool :=
  let b := buffer.map Char.toLower
  decide (b = ['.', '.'] ∨ b = ['.', '%', '2', 'e'] ∨ b = ['%', '2', 'e', '.'] ∨
    b = ['%', '2', 'e', '%', '2', 'e'])

/-- What the path state does with the buffer when a segment ends. `slash`
tells whether the segment was ended by `/` or `\` (as opposed to the end of
the input, `?` or `#`). Shortening a path removes its last segment, if any. -/
def endSegment (slash : Bool) (buffer : List Char) (path : List (List Char)) :
    List (List Char) :=
  if isDoubleDot buffer then
    if slash then path.dropLast else path.dropLast ++ [[]]
  else if isSingleDot buffer then
    if slash then path else path ++ [[]]
  else
    path ++ [buffer]

/-- The path state of the parser for a special scheme: reads the input up to
the end, `?` or `#`, and returns the list of path segments. -/
def pathState : List Char → List Char → List (List Char) → List (List Char)
  | [], buffer, path => endSegment false buffer path
  | c :: cs, buffer, path =>
    if c = '/' ∨ c = '\\' then pathState cs [] (endSegment true buffer path)
    else if c = '?' ∨ c = '#' then endSegment false buffer path
    else pathState cs (buffer ++ percentEncode c) path

/-- The path start state for a special scheme: a leading `/` or `\` is
consumed, anything else is left for the path state. -/
def pathStartState : List Char → List (List Char)
  | [] => pathState [] [] []
  | c :: cs =>
    if c = '/' ∨ c = '\\' then pathState cs [] [] else pathState (c :: cs) [] []

/-- The `pathname` getter for a list of segments: every segment preceded by
`/`. -/
def serializePath (path : List (List Char)) : List Char :=
  path.flatMap (fun segment => '/' :: segment)

/-- The scheme state, for the two schemes covered: the characters before the
first `:` must spell `http` or `https` (in either case); returns what follows
the `:`. -/
def afterScheme (cs : List Char) : Option (List Char) :=
  let scheme := (cs.takeWhile (fun c => c != ':')).map Char.toLower
  match cs.dropWhile (fun c => c != ':') with
  | [] => none
  | _ :: rest =>
    if scheme = ['h', 't', 't', 'p'] ∨ scheme = ['h', 't', 't', 'p', 's'] then some rest
    else none

/-- A character that ends the authority of a special URL. -/
def endsAuthority (c : Char) : Bool :=
  decide (c = '/' ∨ c = '\\' ∨ c = '?' ∨ c = '#')

/-- Value of a string of decimal digits. -/
def decimalValue (digits : List Char) : Nat :=
  digits.foldl (fun n d => 10 * n + (d.toNat - 48)) 0

/-- The authorities covered: a non-empty host of ASCII letters, optionally
followed by `:` and a decimal port of at most 65535. -/
def plainAuthority (authority : List Char) : Bool :=
  let host := authority.takeWhile (fun c => c != ':')
  let port := (authority.dropWhile (fun c => c != ':')).drop 1
  decide (host ≠ []) && host.all Char.isAlpha &&
    port.all Char.isDigit && decide (decimalValue port ≤ 65535)

/-- Modelled from the spec: the `URL` constructor is not in the repository;
the specification says that the path comes from the request URL, query
string ignored. This is `new URL(input)` as far as `pathname` is concerned,
following the basic URL parser of the URL Standard: input preparation, scheme,
authority, then the path state, which drops dot segments and percent-encodes.
`none` when no URL object is produced by the model. -/
def newURL (input : String) : Option URL :=
  match afterScheme (stripInput input.toList) with
  | none => none
  | some rest =>
    -- special authority slashes: any run of `/` and `\` is skipped
    let rest := rest.dropWhile (fun c => decide (c = '/' ∨ c = '\\'))
    let authority := rest.takeWhile (fun c => !endsAuthority c)
    if plainAuthority authority then
      some { pathname :=
        String.mk (serializePath (pathStartState (rest.dropWhile (fun c => !endsAuthority c)))) }
    else none

end WHATWG

/-! ## The path component computed by `url.parse(..)`

The module `url` belongs to the run time, not to the repository. The
definitions of this section model the legacy parser of Node.js (`lib/url.js`,
`Url.prototype.parse` with `slashesDenoteHost` unset) for inputs that carry
neither a protocol nor a `//user@host` authority, which is the case of every
origin-form request target with a single leading slash. Only `pathname` is
computed. On an input with a protocol or such an authority the model yields
`none`: the parser goes into host parsing there (where it may also throw),
which is outside the part modelled here. -/

namespace Legacy

/-- Characters trimmed from both ends of the input: code below 33, the
no-break space and the zero-width no-break space. -/
def isWs (c : Char) : Bool :=
  decide (c.toNat < 33 ∨ c.toNat = 0xA0 ∨ c.toNat = 0xFEFF)

/-- The class `\s` of the regular expressions of the parser. -/
def isRegexSpace (c : Char) : Bool :=
  decide (c.toNat ∈ [0x09, 0x0A, 0x0B, 0x0C, 0x0D, 0x20, 0xA0, 0x1680, 0x2028, 0x2029,
      0x202F, 0x205F, 0x3000, 0xFEFF] ∨ (0x2000 ≤ c.toNat ∧ c.toNat ≤ 0x200A))

/-- Both ends trimmed. -/
def trim (cs : List Char) : List Char :=
  WHATWG.dropTrailing isWs (cs.dropWhile isWs)

/-- Back slashes are turned into forward slashes up to the first `?` or `#`. -/
def convertBackslashes : List Char → List Char
  | [] => []
  | c :: cs =>
    if c = '?' ∨ c = '#' then c :: cs
    else if c = '\\' then '/' :: convertBackslashes cs
    else c :: convertBackslashes cs

/-- Whether an `@` occurs before the first `?` or `#`. -/
def hasAt (rest : List Char) : Bool :=
  (rest.takeWhile (fun c => !decide (c = '?' ∨ c = '#'))).contains '@'

/-- Whether a `#` occurs anywhere. -/
def hasHash (rest : List Char) : Bool := rest.contains '#'

/-- The pattern `/^(\/\/?(?!\/)[^?\s]*)(\?[^\s]*)?$/` of the fast path: one or
two leading slashes not followed by a further slash, and no white space
anywhere. -/
def simplePathPattern (rest : List Char) : Bool :=
  match rest with
  | '/' :: '/' :: '/' :: _ => false
  | '/' :: _ => rest.all (fun c => !isRegexSpace c)
  | _ => false

/-- The pattern `/^[a-z0-9.+-]+:/i`: the input starts with a protocol. -/
def protocolPattern (rest : List Char) : Bool :=
  let isProtoChar := fun (c : Char) => c.isAlphanum || decide (c = '.' ∨ c = '+' ∨ c = '-')
  decide (rest.takeWhile isProtoChar ≠ []) &&
    ((rest.dropWhile isProtoChar).head? == some ':')

/-- The pattern `/^\/\/[^@/]+@[^@/]+/`: the input starts with `//user@host`. -/
def hostPattern (rest : List Char) : Bool :=
  match rest with
  | '/' :: '/' :: cs =>
    let notAtSlash := fun (c : Char) => !decide (c = '@' ∨ c = '/')
    decide (cs.takeWhile notAtSlash ≠ []) &&
      (match cs.dropWhile notAtSlash with
       | '@' :: c :: _ => notAtSlash c
       | _ => false)
  | _ => false

/-- The characters that are always escaped on the slow path: tab, line feed,
carriage return, space, both quotes, `<`, `>`, back slash, `^`, backtick,
the braces and the bar. -/
def isAutoEscape (c : Char) : Bool :=
  decide (c.toNat ∈ [0x09, 0x0A, 0x0D, 0x20, 0x22, 0x27, 0x3C, 0x3E, 0x5C, 0x5E, 0x60,
      0x7B, 0x7C, 0x7D])

/-- The function `autoEscapeStr`: each such character becomes its
percent-encoded form. -/
def autoEscapeStr (rest : List Char) : List Char :=
  rest.flatMap (fun c =>
    if isAutoEscape c then
      ['%', WHATWG.hexDigit (c.toNat / 16), WHATWG.hexDigit (c.toNat % 16)]
    else [c])

/-- Modelled from the spec: the function `url.parse` is not in the
repository; the specification says that the path comes from the request URL,
query string ignored. This is `url.parse(url, parseQueryString)` as far as
`pathname` is concerned, following the legacy parser of Node.js: trimming,
back slash conversion, the fast path for simple paths, and otherwise escaping
and the split at the first `?` or `#`. No dot segment is removed.
`parseQueryString` only changes the shape of `query`. `none` when no URL
object is produced by the model. -/
def urlParse (url : String) (_parseQueryString : Bool) : Option UrlObject :=
  let rest := convertBackslashes (trim url.toList)
  if !hasHash rest && !hasAt rest && simplePathPattern rest then
    -- fast path: the first group of the pattern is the path
    some { pathname := some (String.mk (rest.takeWhile (fun c => c != '?'))) }
  else if protocolPattern rest || hostPattern rest then
    none
  else
    let rest := autoEscapeStr rest
    let path := rest.takeWhile (fun c => !decide (c = '?' ∨ c = '#'))
    some { pathname := if path = [] then none else some (String.mk path) }

end Legacy

/-! ## From a request on the wire to the handler

A request as sent to the listener carries a method and a request target in
origin form (a path, optionally followed by `?` and a query). How the `req`
object is made from it is the business of the run time: Node passes the
target unchanged as `req.url`; Bun passes the absolute URL made of the
listener's own address and the target. -/

/-- A request as it arrives at the listener. -/
structure WireRequest where
  method : String
  target : String
  headers : Headers
  body : String
  deriving DecidableEq, Repr

namespace Node

/-- Modelled from the spec: the HTTP layer of Node is not in the repository.
The `req` object of the callback for a wire request: `req.url` is the request
target as sent. -/
def incoming (w : WireRequest) : Request :=
  { method := w.method, url := w.target, headers := w.headers, body := w.body }

/-- The response of the Node variant to a wire request: the callback runs on
a fresh `res` with the legacy parser, and what was written is sent. -/
def respond (w : WireRequest) : Option Response :=
  (requestListener Legacy.urlParse (incoming w) ServerResponse.fresh).bind
    ServerResponse.sent

end Node

namespace Bun

/-- Modelled from the spec: the HTTP layer of Bun is not in the repository.
The `req` object of the handler for a wire request: `req.url` is the absolute
URL of the target on the listener's address `http://localhost:8080`. -/
def incoming (w : WireRequest) : Request :=
  { method := w.method, url := "http://localhost:8080" ++ w.target,
    headers := w.headers, body := w.body }

/-- The response of the Bun variant to a wire request: what `fetch` returns
with the `URL` constructor. -/
def respond (w : WireRequest) : Option Response :=
  fetch WHATWG.newURL (incoming w)

end Bun

/-! ## Origin-form targets made of plain segments

The request targets for which the statements below compare the two parsers:
a path `/s₁/../sₙ` whose segments consist of plain characters and are not dot
segments, optionally followed by `?` and an arbitrary query. -/

/-- A printable ASCII character other than the two quotes, `#`, `/`, `<`,
`>`, `?`, back slash, `^`, backtick, the braces and the bar. -/
def isPlainPathChar (c : Char) : Bool :=
  decide (0x21 ≤ c.toNat ∧ c.toNat ≤ 0x7E ∧
    c.toNat ∉ [0x22, 0x23, 0x27, 0x2F, 0x3C, 0x3E, 0x3F, 0x5C, 0x5E, 0x60, 0x7B, 0x7C, 0x7D])

/-- A segment of plain characters that is neither a single-dot nor a
double-dot segment. The empty segment is plain. -/
def isPlainSegment (segment : String) : Bool :=
  segment.toList.all isPlainPathChar && !WHATWG.isSingleDot segment.toList &&
    !WHATWG.isDoubleDot segment.toList

/-- The path `/s₁/s₂/../sₙ` of the segments `s₁, .., sₙ`. -/
def pathOf (segments : List String) : String :=
  String.mk (segments.flatMap (fun segment => '/' :: segment.toList))

/-- The request target with the given path segments and, when present, the
given query after a `?`. -/
def targetOf (segments : List String) (query : Option String) : String :=
  match query with
  | none => pathOf segments
  | some q => pathOf segments ++ "?" ++ q

/-! ## Start-up code of the two scripts -/

/-- An observable action of a start-up script. -/
inductive Effect where
  | listen (port : Nat)
  | log (line : String)
  deriving DecidableEq, Repr

namespace Node

/-- The constant `PORT`. -/
def PORT : Nat := 8080

/-- Top level of the Node script: `server.listen(PORT, cb)` and then the one
`console.log` of `cb`, whose template literal interpolates `PORT`. -/
def main : List Effect :=
  [Effect.listen PORT,
   Effect.log ("Server listening on http://localhost:" ++ toString PORT)]

end Node

namespace Bun

/-- Top level of the Bun script: `Bun.serve` with `port: 8080` and then one
`console.log` of a fixed string. -/
def main : List Effect :=
  [Effect.listen 8080,
   Effect.log "Server running at http://localhost:8080"]

end Bun

open Node (ResCall ServerResponse)

/-! ## Facts about plain characters and segments -/

theorem plainChar_ne_delims {c : Char} (h : isPlainPathChar c = true) :
    c ≠ '/' ∧ c ≠ '\\' ∧ c ≠ '?' ∧ c ≠ '#' := by
  refine ⟨?_, ?_, ?_, ?_⟩ <;> (rintro rfl; revert h; decide)

theorem plainChar_not_encoded {c : Char} (h : isPlainPathChar c = true) :
    WHATWG.inPathPercentEncodeSet c = false := by
  simp only [isPlainPathChar, WHATWG.inPathPercentEncodeSet, decide_eq_true_eq,
    decide_eq_false_iff_not, List.mem_cons, List.mem_singleton, List.not_mem_nil, or_false] at h ⊢
  generalize c.toNat = n at h ⊢
  omega

theorem plainChar_not_space {c : Char} (h : isPlainPathChar c = true) :
    WHATWG.isC0ControlOrSpace c = false ∧ WHATWG.isTabOrNewline c = false ∧
      Legacy.isWs c = false ∧ Legacy.isAutoEscape c = false := by
  simp only [isPlainPathChar, WHATWG.isC0ControlOrSpace, WHATWG.isTabOrNewline, Legacy.isWs,
    Legacy.isAutoEscape, decide_eq_true_eq, decide_eq_false_iff_not, List.mem_cons,
    List.mem_singleton, List.not_mem_nil, or_false] at h ⊢
  generalize c.toNat = n at h ⊢
  omega

theorem toLower_eq_slash {c : Char} (h : c.toLower = '/') : c = '/' := by
  unfold Char.toLower at h
  dsimp only at h
  split at h
  · rename_i hupper
    rw [← Char.ofNat_toNat c] at h ⊢
    generalize c.toNat = n at h hupper ⊢
    obtain ⟨h1, h2⟩ := hupper
    interval_cases n <;> exact absurd h (by decide)
  · exact h

theorem plain_of_toLower {c : Char} (h : isPlainPathChar c.toLower = true) :
    isPlainPathChar c = true := by
  unfold Char.toLower at h
  dsimp only at h
  split at h
  · rename_i hupper
    simp only [isPlainPathChar, decide_eq_true_eq, List.mem_cons, List.mem_singleton,
      List.not_mem_nil, or_false]
    generalize c.toNat = n at hupper ⊢
    omega
  · exact h

theorem dropWhile_append_keep {p : Char → Bool} (a b : List Char)
    (h : b = [] ∨ ∃ x rest, b = x :: rest ∧ p x = false) :
    (a ++ b).dropWhile p = a.dropWhile p ++ b := by
  induction a with
  | nil =>
    rcases h with rfl | ⟨x, rest, rfl, hx⟩
    · simp
    · simp [List.dropWhile_cons, hx]
  | cons y ys ih =>
    simp only [List.cons_append, List.dropWhile_cons]
    split
    · exact ih
    · rfl

theorem dropTrailing_append_keep {p : Char → Bool} (a b : List Char)
    (h : a = [] ∨ ∃ front x, a = front ++ [x] ∧ p x = false) :
    WHATWG.dropTrailing p (a ++ b) = a ++ WHATWG.dropTrailing p b := by
  unfold WHATWG.dropTrailing
  rw [List.reverse_append, dropWhile_append_keep, List.reverse_append, List.reverse_reverse]
  rcases h with rfl | ⟨front, x, rfl, hx⟩
  · exact Or.inl rfl
  · exact Or.inr ⟨x, front.reverse, by simp, hx⟩

theorem dropTrailing_append_of_all {p : Char → Bool} (a b : List Char)
    (h : ∀ c ∈ a, p c = false) :
    WHATWG.dropTrailing p (a ++ b) = a ++ WHATWG.dropTrailing p b := by
  apply dropTrailing_append_keep
  rcases List.eq_nil_or_concat a with rfl | ⟨front, x, rfl⟩
  · exact Or.inl rfl
  · exact Or.inr ⟨front, x, by simp, h x (by simp)⟩

theorem dropTrailing_eq_nil_or_cons (p : Char → Bool) (c : Char) (cs : List Char) :
    WHATWG.dropTrailing p (c :: cs) = [] ∨ ∃ cs', WHATWG.dropTrailing p (c :: cs) = c :: cs' := by
  have hsplit : c :: cs = WHATWG.dropTrailing p (c :: cs) ++
      ((c :: cs).reverse.takeWhile p).reverse := by
    unfold WHATWG.dropTrailing
    rw [← List.reverse_append, List.takeWhile_append_dropWhile, List.reverse_reverse]
  cases hd : WHATWG.dropTrailing p (c :: cs) with
  | nil => exact Or.inl rfl
  | cons d ds =>
    rw [hd, List.cons_append] at hsplit
    exact Or.inr ⟨ds, by rw [(List.cons.inj hsplit).1]⟩

/-! ## The `URL` constructor on the listener's own address -/

theorem stripInput_append_of_all (x : Char) (a b : List Char)
    (h : ∀ c ∈ x :: a, WHATWG.isC0ControlOrSpace c = false) :
    WHATWG.stripInput (x :: a ++ b) =
      x :: a ++ (WHATWG.dropTrailing WHATWG.isC0ControlOrSpace b).filter
        (fun c => !WHATWG.isTabOrNewline c) := by
  have hx : WHATWG.isC0ControlOrSpace x = false := h x (by simp)
  have htab : ∀ c ∈ x :: a, (!WHATWG.isTabOrNewline c) = true := by
    intro c hc
    have := h c hc
    simp only [WHATWG.isC0ControlOrSpace, WHATWG.isTabOrNewline, decide_eq_false_iff_not,
      Bool.not_eq_true', decide_eq_false_iff_not] at this ⊢
    omega
  unfold WHATWG.stripInput
  rw [show (x :: a ++ b).dropWhile WHATWG.isC0ControlOrSpace = (x :: a) ++ b by
    simp [List.dropWhile_cons, hx]]
  rw [dropTrailing_append_of_all _ _ h, List.filter_append, List.filter_eq_self.mpr htab]

theorem newURL_of_stripped (input : String) (rest : List Char)
    (h : WHATWG.stripInput input.toList =
      ['h', 't', 't', 'p', ':', '/', '/', 'l', 'o', 'c', 'a', 'l', 'h', 'o', 's', 't', ':',
        '8', '0', '8', '0'] ++ '/' :: rest) :
    WHATWG.newURL input =
      some { pathname := String.mk (WHATWG.serializePath (WHATWG.pathState rest [] [])) } := by
  unfold WHATWG.newURL
  rw [h]
  simp [WHATWG.afterScheme, WHATWG.endsAuthority, WHATWG.plainAuthority, WHATWG.pathStartState,
    List.takeWhile_cons, List.dropWhile_cons, WHATWG.decimalValue]

theorem pathState_append_plain (segment rest : List Char)
    (h : ∀ c ∈ segment, isPlainPathChar c = true) :
    ∀ (buffer : List Char) (path : List (List Char)),
      WHATWG.pathState (segment ++ rest) buffer path =
        WHATWG.pathState rest (buffer ++ segment) path := by
  induction segment with
  | nil => intro buffer path; simp
  | cons c cs ih =>
    intro buffer path
    have hc : isPlainPathChar c = true := h c (by simp)
    obtain ⟨h1, h2, h3, h4⟩ := plainChar_ne_delims hc
    have henc : WHATWG.percentEncode c = [c] := by
      simp [WHATWG.percentEncode, plainChar_not_encoded hc]
    rw [List.cons_append, WHATWG.pathState]
    simp only [h1, h2, h3, h4, or_self, if_false, henc]
    rw [ih (fun x hx => h x (by simp [hx]))]
    simp

theorem endSegment_plain (slash : Bool) (segment : String) (path : List (List Char))
    (h : isPlainSegment segment = true) :
    WHATWG.endSegment slash segment.toList path = path ++ [segment.toList] := by
  simp only [isPlainSegment, Bool.and_eq_true, Bool.not_eq_true'] at h
  rw [WHATWG.endSegment, h.2, h.1.2]
  rfl

theorem pathState_at_end (tail buffer : List Char) (path : List (List Char))
    (htail : tail = [] ∨ ∃ q, tail = '?' :: q) :
    WHATWG.pathState tail buffer path = WHATWG.endSegment false buffer path := by
  rcases htail with rfl | ⟨q, rfl⟩
  · rfl
  · simp [WHATWG.pathState]

theorem plainSegment_chars {segment : String} (h : isPlainSegment segment = true) :
    ∀ c ∈ segment.toList, isPlainPathChar c = true := by
  simp only [isPlainSegment, Bool.and_eq_true, List.all_eq_true] at h
  exact h.1.1

theorem pathState_segments (tail : List Char) (htail : tail = [] ∨ ∃ q, tail = '?' :: q) :
    ∀ (more : List String) (first : String) (path : List (List Char)),
      (∀ s ∈ first :: more, isPlainSegment s = true) →
      WHATWG.pathState
          (first.toList ++ (more.flatMap (fun s => '/' :: s.toList) ++ tail)) [] path =
        path ++ (first :: more).map String.toList := by
  intro more
  induction more with
  | nil =>
    intro first path h
    have hf := h first (by simp)
    rw [List.flatMap_nil, List.nil_append, pathState_append_plain _ _ (plainSegment_chars hf),
      List.nil_append, pathState_at_end _ _ _ htail, endSegment_plain _ _ _ hf]
    rfl
  | cons second more ih =>
    intro first path h
    have hf := h first (by simp)
    rw [List.flatMap_cons, List.append_assoc, List.cons_append,
      pathState_append_plain _ _ (plainSegment_chars hf), List.nil_append, WHATWG.pathState]
    simp only [true_or, if_true]
    rw [endSegment_plain _ _ _ hf, ih second _ (fun s hs => h s (by simp [hs]))]
    simp

theorem serializePath_map (segments : List String) :
    WHATWG.serializePath (segments.map String.toList) =
      segments.flatMap (fun s => '/' :: s.toList) := by
  induction segments with
  | nil => rfl
  | cons s ss ih =>
    simp only [WHATWG.serializePath, List.map_cons, List.flatMap_cons] at ih ⊢
    rw [ih]

theorem path_chars (segments : List String) (h : ∀ s ∈ segments, isPlainSegment s = true) :
    ∀ c ∈ segments.flatMap (fun s => '/' :: s.toList), c = '/' ∨ isPlainPathChar c = true := by
  intro c hc
  simp only [List.mem_flatMap, List.mem_cons] at hc
  obtain ⟨s, hs, hc⟩ := hc
  rcases hc with rfl | hc
  · exact Or.inl rfl
  · exact Or.inr (plainSegment_chars (h s hs) c hc)

theorem targetOf_toList (segments : List String) (query : Option String) :
    ∃ tail : List Char, (tail = [] ∨ ∃ q, tail = '?' :: q) ∧
      (targetOf segments query).toList =
        segments.flatMap (fun s => '/' :: s.toList) ++ tail := by
  cases query with
  | none => exact ⟨[], Or.inl rfl, by simp [targetOf, pathOf]⟩
  | some q =>
    refine ⟨'?' :: q.toList, Or.inr ⟨_, rfl⟩, ?_⟩
    simp [targetOf, pathOf]

theorem stripInput_target (x : Char) (a tail : List Char)
    (h : ∀ c ∈ x :: a, WHATWG.isC0ControlOrSpace c = false)
    (htail : tail = [] ∨ ∃ q, tail = '?' :: q) :
    ∃ tail' : List Char, (tail' = [] ∨ ∃ q, tail' = '?' :: q) ∧
      WHATWG.stripInput (x :: a ++ tail) = x :: a ++ tail' := by
  rcases htail with rfl | ⟨q, rfl⟩
  · refine ⟨[], Or.inl rfl, ?_⟩
    rw [stripInput_append_of_all x a [] h]
    rfl
  · refine ⟨'?' :: (WHATWG.dropTrailing WHATWG.isC0ControlOrSpace q).filter
        (fun c => !WHATWG.isTabOrNewline c), Or.inr ⟨_, rfl⟩, ?_⟩
    have h' : ∀ c ∈ x :: (a ++ ['?']), WHATWG.isC0ControlOrSpace c = false := by
      intro c hc
      simp only [List.mem_cons, List.mem_append, List.mem_singleton, List.not_mem_nil,
        or_false] at hc
      rcases hc with rfl | hc | rfl
      · exact h _ (by simp)
      · exact h _ (by simp [hc])
      · decide
    have := stripInput_append_of_all x (a ++ ['?']) q h'
    simpa using this

/-- On the listener's address followed by a target of plain segments, the
`URL` constructor reports exactly the path of the target. -/
theorem newURL_targetOf (segments : List String) (query : Option String)
    (hne : segments ≠ []) (hplain : ∀ s ∈ segments, isPlainSegment s = true) :
    WHATWG.newURL ("http://localhost:8080" ++ targetOf segments query) =
      some { pathname := pathOf segments } := by
  obtain ⟨tail, htail, htarget⟩ := targetOf_toList segments query
  obtain ⟨first, more, rfl⟩ := List.exists_cons_of_ne_nil hne
  have hchars : ∀ c ∈ 'h' :: (['t', 't', 'p', ':', '/', '/', 'l', 'o', 'c', 'a', 'l', 'h', 'o',
      's', 't', ':', '8', '0', '8', '0'] ++
        (first :: more).flatMap (fun s => '/' :: s.toList)),
      WHATWG.isC0ControlOrSpace c = false := by
    intro c hc
    rw [← List.cons_append, List.mem_append] at hc
    rcases hc with hc | hc
    · revert c
      decide
    · rcases path_chars _ hplain c hc with rfl | hc
      · decide
      · exact (plainChar_not_space hc).1
  obtain ⟨tail', htail', hstrip⟩ := stripInput_target _ _ tail hchars htail
  have hinput : ("http://localhost:8080" ++ targetOf (first :: more) query).toList =
      'h' :: (['t', 't', 'p', ':', '/', '/', 'l', 'o', 'c', 'a', 'l', 'h', 'o',
        's', 't', ':', '8', '0', '8', '0'] ++
          (first :: more).flatMap (fun s => '/' :: s.toList)) ++ tail := by
    show "http://localhost:8080".toList ++ (targetOf (first :: more) query).toList = _
    rw [htarget]
    rfl
  rw [newURL_of_stripped _ (first.toList ++ (more.flatMap (fun s => '/' :: s.toList) ++ tail'))]
  · rw [pathState_segments tail' htail' more first [] hplain, List.nil_append, serializePath_map]
    rfl
  · rw [hinput, hstrip]
    simp

theorem newURL_isSome_of_slash (target : String) (rest : List Char)
    (h : target.toList = '/' :: rest) :
    ∃ url, WHATWG.newURL ("http://localhost:8080" ++ target) = some url := by
  refine ⟨_, newURL_of_stripped _ ((WHATWG.dropTrailing WHATWG.isC0ControlOrSpace rest).filter
    (fun c => !WHATWG.isTabOrNewline c)) ?_⟩
  have hinput : ("http://localhost:8080" ++ target).toList =
      'h' :: ['t', 't', 'p', ':', '/', '/', 'l', 'o', 'c', 'a', 'l', 'h', 'o',
        's', 't', ':', '8', '0', '8', '0', '/'] ++ rest := by
    show "http://localhost:8080".toList ++ target.toList = _
    rw [h]
    rfl
  rw [hinput, stripInput_append_of_all _ _ _ (by decide)]
  rfl

/-! ## The legacy parser on targets of plain segments -/

theorem pathChar_legacy {c : Char} (h : c = '/' ∨ isPlainPathChar c = true) :
    Legacy.isWs c = false ∧ Legacy.isAutoEscape c = false ∧ c ≠ '\\' ∧ c ≠ '?' ∧ c ≠ '#' := by
  rcases h with rfl | h
  · decide
  · obtain ⟨-, h2, h3, h4⟩ := plainChar_ne_delims h
    exact ⟨(plainChar_not_space h).2.2.1, (plainChar_not_space h).2.2.2, h2, h3, h4⟩

theorem trim_target (x : Char) (a tail : List Char)
    (h : ∀ c ∈ x :: a, Legacy.isWs c = false)
    (htail : tail = [] ∨ ∃ q, tail = '?' :: q) :
    ∃ tail' : List Char, (tail' = [] ∨ ∃ q, tail' = '?' :: q) ∧
      Legacy.trim (x :: a ++ tail) = x :: a ++ tail' := by
  have hx : Legacy.isWs x = false := h x (by simp)
  have hdrop : ∀ b : List Char, (x :: a ++ b).dropWhile Legacy.isWs = x :: a ++ b := by
    intro b
    simp [List.dropWhile_cons, hx]
  unfold Legacy.trim
  rw [hdrop]
  rcases htail with rfl | ⟨q, rfl⟩
  · refine ⟨[], Or.inl rfl, ?_⟩
    rw [dropTrailing_append_of_all _ _ h]
    rfl
  · refine ⟨'?' :: WHATWG.dropTrailing Legacy.isWs q, Or.inr ⟨_, rfl⟩, ?_⟩
    have h' : ∀ c ∈ x :: a ++ ['?'], Legacy.isWs c = false := by
      intro c hc
      rw [List.mem_append] at hc
      rcases hc with hc | hc
      · exact h c hc
      · rw [List.mem_singleton] at hc
        subst hc
        decide
    have := dropTrailing_append_of_all (x :: a ++ ['?']) q h'
    simpa using this

theorem convertBackslashes_target (path tail : List Char)
    (h : ∀ c ∈ path, c ≠ '\\' ∧ c ≠ '?' ∧ c ≠ '#')
    (htail : tail = [] ∨ ∃ q, tail = '?' :: q) :
    Legacy.convertBackslashes (path ++ tail) = path ++ tail := by
  induction path with
  | nil =>
    rcases htail with rfl | ⟨q, rfl⟩
    · rfl
    · simp [Legacy.convertBackslashes]
  | cons c cs ih =>
    obtain ⟨h1, h2, h3⟩ := h c (by simp)
    rw [List.cons_append, Legacy.convertBackslashes]
    simp only [h1, h2, h3, or_self, if_false]
    rw [ih (fun x hx => h x (by simp [hx]))]

theorem convertBackslashes_head (c : Char) (cs : List Char) (h : c ≠ '\\') :
    ∃ cs', Legacy.convertBackslashes (c :: cs) = c :: cs' := by
  rw [Legacy.convertBackslashes]
  by_cases hsplit : c = '?' ∨ c = '#'
  · rw [if_pos hsplit]
    exact ⟨_, rfl⟩
  · rw [if_neg hsplit, if_neg h]
    exact ⟨_, rfl⟩

theorem autoEscapeStr_target (path tail : List Char)
    (h : ∀ c ∈ path, Legacy.isAutoEscape c = false) :
    Legacy.autoEscapeStr (path ++ tail) = path ++ Legacy.autoEscapeStr tail := by
  induction path with
  | nil => rfl
  | cons c cs ih =>
    have hc := h c (by simp)
    have ih' := ih (fun x hx => h x (by simp [hx]))
    simp only [Legacy.autoEscapeStr, List.cons_append, List.flatMap_cons, hc] at ih' ⊢
    rw [ih']
    rfl

theorem autoEscapeStr_tail (tail : List Char) (htail : tail = [] ∨ ∃ q, tail = '?' :: q) :
    Legacy.autoEscapeStr tail = [] ∨ ∃ q, Legacy.autoEscapeStr tail = '?' :: q := by
  rcases htail with rfl | ⟨q, rfl⟩
  · exact Or.inl rfl
  · exact Or.inr ⟨Legacy.autoEscapeStr q, rfl⟩

theorem takeWhile_target (p : Char → Bool) (path tail : List Char)
    (h : ∀ c ∈ path, p c = true) (hq : p '?' = false)
    (htail : tail = [] ∨ ∃ q, tail = '?' :: q) :
    (path ++ tail).takeWhile p = path := by
  rw [List.takeWhile_append_of_pos h]
  rcases htail with rfl | ⟨q, rfl⟩
  · simp
  · simp [List.takeWhile_cons, hq]

theorem protocolPattern_slash (rest : List Char) :
    Legacy.protocolPattern ('/' :: rest) = false := by
  simp [Legacy.protocolPattern, List.takeWhile_cons]

theorem hostPattern_single_slash (rest : List Char) (h : ∀ cs, rest ≠ '/' :: cs) :
    Legacy.hostPattern ('/' :: rest) = false := by
  cases rest with
  | nil => rfl
  | cons c cs =>
    have hc : c ≠ '/' := fun hc => h cs (by rw [hc])
    unfold Legacy.hostPattern
    split
    · rename_i heq
      simp only [List.cons.injEq, true_and] at heq
      exact absurd heq.1 hc
    · rfl

/-- On a target of plain segments that does not start with two slashes, the
legacy parser reports exactly the path of the target. -/
theorem urlParse_targetOf (segments : List String) (query : Option String)
    (hne : segments ≠ []) (hplain : ∀ s ∈ segments, isPlainSegment s = true)
    (hfirst : ∀ more, segments = "" :: more → more = []) :
    Legacy.urlParse (targetOf segments query) true =
      some { pathname := some (pathOf segments) } := by
  obtain ⟨tail, htail, htarget⟩ := targetOf_toList segments query
  obtain ⟨first, more, rfl⟩ := List.exists_cons_of_ne_nil hne
  have hpath : (first :: more).flatMap (fun s => '/' :: s.toList) =
      '/' :: (first.toList ++ more.flatMap (fun s => '/' :: s.toList)) := rfl
  have hchars : ∀ c ∈ '/' :: (first.toList ++ more.flatMap (fun s => '/' :: s.toList)),
      Legacy.isWs c = false ∧ Legacy.isAutoEscape c = false ∧ c ≠ '\\' ∧ c ≠ '?' ∧ c ≠ '#' :=
    fun c hc => pathChar_legacy (path_chars _ hplain c (hpath ▸ hc))
  obtain ⟨tail₁, htail₁, htrim⟩ := trim_target _ _ tail (fun c hc => (hchars c hc).1) htail
  have hconv : Legacy.convertBackslashes (Legacy.trim (targetOf (first :: more) query).toList) =
      '/' :: (first.toList ++ more.flatMap (fun s => '/' :: s.toList)) ++ tail₁ := by
    rw [htarget, hpath, htrim]
    exact convertBackslashes_target _ _ (fun c hc => (hchars c hc).2.2) htail₁
  have hsecond : ∀ cs, first.toList ++ more.flatMap (fun s => '/' :: s.toList) ++ tail₁ ≠
      '/' :: cs := by
    intro cs heq
    cases hdata : first.toList with
    | nil =>
      have hempty : first = "" := by
        cases first
        simp only [String.toList] at hdata
        subst hdata
        rfl
      have hmore := hfirst more (by rw [hempty])
      subst hmore
      rw [hdata] at heq
      rcases htail₁ with rfl | ⟨q, rfl⟩
      · simp at heq
      · simp only [List.flatMap_nil, List.nil_append, List.append_nil, List.cons.injEq] at heq
        exact absurd heq.1 (by decide)
    | cons c rest =>
      rw [hdata] at heq
      simp only [List.cons_append, List.cons.injEq] at heq
      have hc : isPlainPathChar c = true :=
        plainSegment_chars (hplain first (by simp)) c (by rw [hdata]; simp)
      exact (plainChar_ne_delims hc).1 heq.1
  have hresult : String.mk ('/' :: (first.toList ++ more.flatMap (fun s => '/' :: s.toList))) =
      pathOf (first :: more) := rfl
  unfold Legacy.urlParse
  rw [hconv]
  dsimp only
  split
  · rw [takeWhile_target _ _ _ (fun c hc => by simpa using (hchars c hc).2.2.2.1) (by decide)
      htail₁, hresult]
  · rw [List.cons_append, protocolPattern_slash, hostPattern_single_slash _ hsecond]
    simp only [Bool.or_self, Bool.false_eq_true, if_false]
    rw [← List.cons_append, autoEscapeStr_target _ _ (fun c hc => (hchars c hc).2.1),
      takeWhile_target _ _ _
        (fun c hc => by simpa using ⟨(hchars c hc).2.2.2.1, (hchars c hc).2.2.2.2⟩)
        (by decide) (autoEscapeStr_tail _ htail₁), hresult]
    simp

theorem urlParse_isSome_of_single_slash (target : String) (rest : List Char)
    (h : target.toList = '/' :: rest)
    (hsecond : ∀ c cs, rest = c :: cs → c ≠ '/' ∧ c ≠ '\\') :
    ∃ parsedUrl, Legacy.urlParse target true = some parsedUrl := by
  have htrim : Legacy.trim ('/' :: rest) = '/' :: WHATWG.dropTrailing Legacy.isWs rest := by
    unfold Legacy.trim
    rw [List.dropWhile_cons_of_neg (by decide)]
    exact dropTrailing_append_keep ['/'] rest (Or.inr ⟨[], '/', rfl, by decide⟩)
  have hconv : ∃ tail, (∀ cs, tail ≠ '/' :: cs) ∧
      Legacy.convertBackslashes (Legacy.trim target.toList) = '/' :: tail := by
    rw [h, htrim, Legacy.convertBackslashes]
    simp only [show ¬ ('/' = '?' ∨ '/' = '#') by decide, show ¬ ('/' = '\\') by decide, if_false]
    cases rest with
    | nil => exact ⟨[], by simp, rfl⟩
    | cons c cs =>
      obtain ⟨hc1, hc2⟩ := hsecond c cs rfl
      rcases dropTrailing_eq_nil_or_cons Legacy.isWs c cs with hd | ⟨cs', hd⟩
      · rw [hd]
        exact ⟨[], by simp, rfl⟩
      · rw [hd]
        obtain ⟨cs'', hcs''⟩ := convertBackslashes_head c cs' hc2
        rw [hcs'']
        exact ⟨c :: cs'', fun _ heq => hc1 (List.cons.inj heq).1, rfl⟩
  obtain ⟨tail, htail, hrest⟩ := hconv
  unfold Legacy.urlParse
  rw [hrest]
  dsimp only
  split
  · exact ⟨_, rfl⟩
  · rw [protocolPattern_slash, hostPattern_single_slash _ htail]
    exact ⟨_, rfl⟩

/-! ## Responses to targets of plain segments -/

theorem bun_respond_targetOf (method : String) (headers : Headers) (body : String)
    (segments : List String) (query : Option String)
    (hne : segments ≠ []) (hplain : ∀ s ∈ segments, isPlainSegment s = true) :
    Bun.respond { method := method, target := targetOf segments query,
                  headers := headers, body := body } =
      if pathOf segments = "/health" ∧ method = "GET" then
        some { body := "OK\n", status := 200, headers := [("Content-Type", "text/plain")] }
      else
        some { body := "Not Found\n", status := 404,
               headers := [("Content-Type", "text/plain")] } := by
  simp only [Bun.respond, Bun.incoming, Bun.fetch, newURL_targetOf segments query hne hplain]

theorem node_respond_targetOf (method : String) (headers : Headers) (body : String)
    (segments : List String) (query : Option String)
    (hne : segments ≠ []) (hplain : ∀ s ∈ segments, isPlainSegment s = true)
    (hfirst : ∀ more, segments = "" :: more → more = []) :
    Node.respond { method := method, target := targetOf segments query,
                   headers := headers, body := body } =
      if pathOf segments = "/health" ∧ method = "GET" then
        some { body := "OK\n", status := 200, headers := [("Content-Type", "text/plain")] }
      else
        some { body := "Not Found\n", status := 404,
               headers := [("Content-Type", "text/plain")] } := by
  simp only [Node.respond, Node.incoming, Node.requestListener,
    urlParse_targetOf segments query hne hplain hfirst]
  by_cases h : pathOf segments = "/health" ∧ method = "GET"
  · rw [if_pos h, if_pos ⟨h.2, congrArg some h.1⟩]
    rfl
  · rw [if_neg h, if_neg (fun h' => h ⟨Option.some.inj h'.2, h'.1⟩)]
    rfl

/-! ## The claims of the specification -/

/-- C1: in both variants a request whose method is exactly `GET` and whose
parsed path is exactly `/health` is answered with status 200, the single
header `Content-Type: text/plain` and the body `OK\n`. For Bun this is the
returned `Response`; for Node the callback appends one `writeHead(200, ..)`
and one `end('OK\n')` to whatever was called on `res` before, so on a fresh
`res` exactly that response is sent. -/
theorem health_get_responds_ok
    (newURL : String → Option URL) (urlParse : String → Bool → Option UrlObject)
    (req : Request) (hmethod : req.method = "GET") :
    (∀ url : URL, newURL req.url = some url → url.pathname = "/health" →
      Bun.fetch newURL req =
        some { body := "OK\n", status := 200,
               headers := [("Content-Type", "text/plain")] }) ∧
    (∀ parsedUrl : UrlObject, urlParse req.url true = some parsedUrl →
      parsedUrl.pathname = some "/health" →
      (∀ res : ServerResponse, Node.requestListener urlParse req res =
        some { calls := res.calls ++
          [ResCall.writeHead 200 [("Content-Type", "text/plain")], ResCall.end_ "OK\n"] }) ∧
      (Node.requestListener urlParse req ServerResponse.fresh).bind ServerResponse.sent =
        some { body := "OK\n", status := 200,
               headers := [("Content-Type", "text/plain")] }) := by
  refine ⟨?_, ?_⟩
  · intro url hparse hpath
    simp [Bun.fetch, hparse, hpath, hmethod]
  · intro parsedUrl hparse hpath
    simp [Node.requestListener, Node.healthHandler, ServerResponse.writeHead,
      ServerResponse.end_, ServerResponse.sent, ServerResponse.fresh, hparse, hpath, hmethod]

/-- Witness of C1: `GET /health` with the two parser models. -/
theorem health_get_responds_ok_witness :
    Bun.fetch WHATWG.newURL
        { method := "GET", url := "http://localhost:8080/health", headers := [], body := "" } =
      some { body := "OK\n", status := 200, headers := [("Content-Type", "text/plain")] } ∧
    (Node.requestListener Legacy.urlParse
        { method := "GET", url := "/health", headers := [], body := "" }
        ServerResponse.fresh).bind ServerResponse.sent =
      some { body := "OK\n", status := 200, headers := [("Content-Type", "text/plain")] } :=
  ⟨(health_get_responds_ok WHATWG.newURL Legacy.urlParse
      { method := "GET", url := "http://localhost:8080/health", headers := [], body := "" }
      rfl).1 { pathname := "/health" } (by decide) rfl,
   ((health_get_responds_ok WHATWG.newURL Legacy.urlParse
      { method := "GET", url := "/health", headers := [], body := "" }
      rfl).2 { pathname := some "/health" } (by decide) rfl).2⟩

/-- C2: in both variants a request whose method is not `GET`, or whose parsed
path is not the string `/health` (for Node this includes a missing path), is
answered with status 404, the single header `Content-Type: text/plain` and
the body `Not Found\n`. -/
theorem other_requests_respond_not_found
    (newURL : String → Option URL) (urlParse : String → Bool → Option UrlObject)
    (req : Request) :
    (∀ url : URL, newURL req.url = some url →
      (req.method ≠ "GET" ∨ url.pathname ≠ "/health") →
      Bun.fetch newURL req =
        some { body := "Not Found\n", status := 404,
               headers := [("Content-Type", "text/plain")] }) ∧
    (∀ parsedUrl : UrlObject, urlParse req.url true = some parsedUrl →
      (req.method ≠ "GET" ∨ parsedUrl.pathname ≠ some "/health") →
      (∀ res : ServerResponse, Node.requestListener urlParse req res =
        some { calls := res.calls ++
          [ResCall.writeHead 404 [("Content-Type", "text/plain")],
           ResCall.end_ "Not Found\n"] }) ∧
      (Node.requestListener urlParse req ServerResponse.fresh).bind ServerResponse.sent =
        some { body := "Not Found\n", status := 404,
               headers := [("Content-Type", "text/plain")] }) := by
  refine ⟨?_, ?_⟩
  · intro url hparse hne
    have hcond : ¬ (url.pathname = "/health" ∧ req.method = "GET") := by
      rintro ⟨hp, hm⟩
      rcases hne with h | h
      · exact h hm
      · exact h hp
    simp [Bun.fetch, hparse, hcond]
  · intro parsedUrl hparse hne
    have hcond : ¬ (req.method = "GET" ∧ parsedUrl.pathname = some "/health") := by
      rintro ⟨hm, hp⟩
      rcases hne with h | h
      · exact h hm
      · exact h hp
    simp [Node.requestListener, ServerResponse.writeHead, ServerResponse.end_,
      ServerResponse.sent, ServerResponse.fresh, hparse, hcond]

/-- Witness of C2: `POST /health` on Bun and `GET /` on Node, with the two
parser models. -/
theorem other_requests_respond_not_found_witness :
    Bun.fetch WHATWG.newURL
        { method := "POST", url := "http://localhost:8080/health", headers := [], body := "" } =
      some { body := "Not Found\n", status := 404,
             headers := [("Content-Type", "text/plain")] } ∧
    (Node.requestListener Legacy.urlParse
        { method := "GET", url := "/", headers := [], body := "" }
        ServerResponse.fresh).bind ServerResponse.sent =
      some { body := "Not Found\n", status := 404,
             headers := [("Content-Type", "text/plain")] } :=
  ⟨(other_requests_respond_not_found WHATWG.newURL Legacy.urlParse
      { method := "POST", url := "http://localhost:8080/health", headers := [], body := "" }).1
      { pathname := "/health" } (by decide) (Or.inl (by decide)),
   ((other_requests_respond_not_found WHATWG.newURL Legacy.urlParse
      { method := "GET", url := "/", headers := [], body := "" }).2
      { pathname := some "/" } (by decide) (Or.inr (by decide))).2⟩

/-- C3, refuted as stated: on the target `/x/../health` the two variants give
different responses to a `GET`. The `URL` constructor removes the dot
segments, so Bun answers 200 `OK\n`; `url.parse` keeps them, so Node answers
404 `Not Found\n`. -/
theorem variants_differ_on_dot_segments :
    Bun.respond { method := "GET", target := "/x/../health", headers := [], body := "" } =
      some { body := "OK\n", status := 200, headers := [("Content-Type", "text/plain")] } ∧
    Node.respond { method := "GET", target := "/x/../health", headers := [], body := "" } =
      some { body := "Not Found\n", status := 404,
             headers := [("Content-Type", "text/plain")] } ∧
    Bun.respond { method := "GET", target := "/x/../health", headers := [], body := "" } ≠
      Node.respond { method := "GET", target := "/x/../health", headers := [], body := "" } := by
  decide

/-- C3, amended: the two handlers apply the same dispatch. Whenever the two
requests carry the same method and the two parsers report the same path, what
`fetch` returns is what the Node callback sends. This is so for every method
and every target made of plain segments that does not start with two
slashes, with or without a query string: there both variants give the same
response. -/
theorem variants_agree_when_paths_agree :
    (∀ (newURL : String → Option URL) (urlParse : String → Bool → Option UrlObject)
        (bunReq nodeReq : Request) (url : URL) (parsedUrl : UrlObject),
      bunReq.method = nodeReq.method →
      newURL bunReq.url = some url → urlParse nodeReq.url true = some parsedUrl →
      parsedUrl.pathname = some url.pathname →
      Bun.fetch newURL bunReq =
        (Node.requestListener urlParse nodeReq ServerResponse.fresh).bind
          ServerResponse.sent) ∧
    (∀ (method : String) (headers : Headers) (body : String) (segments : List String)
        (query : Option String),
      segments ≠ [] → (∀ s ∈ segments, isPlainSegment s = true) →
      (∀ more, segments = "" :: more → more = []) →
      Bun.respond { method := method, target := targetOf segments query,
                    headers := headers, body := body } =
        Node.respond { method := method, target := targetOf segments query,
                       headers := headers, body := body } ∧
      ∃ resp, Bun.respond { method := method, target := targetOf segments query,
                            headers := headers, body := body } = some resp) := by
  refine ⟨?_, ?_⟩
  · intro newURL urlParse bunReq nodeReq url parsedUrl hmethod hb hn hpath
    simp only [Bun.fetch, Node.requestListener, hb, hn, hpath, hmethod]
    by_cases h : url.pathname = "/health" ∧ nodeReq.method = "GET"
    · rw [if_pos h, if_pos ⟨h.2, congrArg some h.1⟩]
      rfl
    · rw [if_neg h, if_neg (fun h' => h ⟨Option.some.inj h'.2, h'.1⟩)]
      rfl
  · intro method headers body segments query hne hplain hfirst
    rw [bun_respond_targetOf method headers body segments query hne hplain,
      node_respond_targetOf method headers body segments query hne hplain hfirst]
    refine ⟨rfl, ?_⟩
    split <;> exact ⟨_, rfl⟩

/-- Witness of C3 (amended): `GET /api/v1/status.json?verbose=1`, for which
both variants answer 404, once through the parsers' agreement and once as a
target of plain segments. -/
theorem variants_agree_when_paths_agree_witness :
    Bun.fetch WHATWG.newURL
        { method := "GET", url := "http://localhost:8080/api/v1/status.json?verbose=1",
          headers := [], body := "" } =
      (Node.requestListener Legacy.urlParse
        { method := "GET", url := "/api/v1/status.json?verbose=1", headers := [], body := "" }
        ServerResponse.fresh).bind ServerResponse.sent ∧
    Bun.respond { method := "GET",
                  target := targetOf ["api", "v1", "status.json"] (some "verbose=1"),
                  headers := [], body := "" } =
      Node.respond { method := "GET",
                     target := targetOf ["api", "v1", "status.json"] (some "verbose=1"),
                     headers := [], body := "" } :=
  ⟨variants_agree_when_paths_agree.1 WHATWG.newURL Legacy.urlParse
      { method := "GET", url := "http://localhost:8080/api/v1/status.json?verbose=1",
        headers := [], body := "" }
      { method := "GET", url := "/api/v1/status.json?verbose=1", headers := [], body := "" }
      { pathname := "/api/v1/status.json" } { pathname := some "/api/v1/status.json" }
      rfl (by decide) (by decide) rfl,
   (variants_agree_when_paths_agree.2 "GET" [] "" ["api", "v1", "status.json"]
      (some "verbose=1") (by decide) (by decide)
      (fun more h => absurd (List.cons.inj h).1 (by decide))).1⟩

/-- C4: the query is ignored. For every query string `q`, `GET /health?q`
is answered in both variants with the 200 response `OK\n`, the same response
as `GET /health`. -/
theorem health_with_query_responds_ok (q : String) (headers : Headers) (body : String) :
    Bun.respond { method := "GET", target := "/health?" ++ q, headers := headers, body := body } =
      some { body := "OK\n", status := 200, headers := [("Content-Type", "text/plain")] } ∧
    Bun.respond { method := "GET", target := "/health?" ++ q, headers := headers, body := body } =
      Bun.respond { method := "GET", target := "/health", headers := headers, body := body } ∧
    Node.respond { method := "GET", target := "/health?" ++ q, headers := headers, body := body } =
      some { body := "OK\n", status := 200, headers := [("Content-Type", "text/plain")] } ∧
    Node.respond { method := "GET", target := "/health?" ++ q, headers := headers, body := body } =
      Node.respond { method := "GET", target := "/health", headers := headers, body := body } := by
  have hplain : ∀ s ∈ ["health"], isPlainSegment s = true := by decide
  have hfirst : ∀ more, ["health"] = "" :: more → more = [] := by
    intro more h
    exact absurd (List.cons.inj h).1 (by decide)
  have hq : targetOf ["health"] (some q) = "/health?" ++ q := rfl
  have h0 : targetOf ["health"] none = "/health" := rfl
  have hb := bun_respond_targetOf "GET" headers body ["health"] (some q) (by simp) hplain
  have hb0 := bun_respond_targetOf "GET" headers body ["health"] none (by simp) hplain
  have hn := node_respond_targetOf "GET" headers body ["health"] (some q) (by simp) hplain hfirst
  have hn0 := node_respond_targetOf "GET" headers body ["health"] none (by simp) hplain hfirst
  rw [hq, if_pos (by decide)] at hb hn
  rw [h0, if_pos (by decide)] at hb0 hn0
  exact ⟨hb, hb.trans hb0.symm, hn, hn.trans hn0.symm⟩

/-- C5: no trailing-slash normalisation. `GET /health/`, with or without a
query string, is answered in both variants with the 404 response
`Not Found\n`. -/
theorem health_trailing_slash_not_found (q : String) (headers : Headers) (body : String) :
    Bun.respond { method := "GET", target := "/health/", headers := headers, body := body } =
      some { body := "Not Found\n", status := 404,
             headers := [("Content-Type", "text/plain")] } ∧
    Bun.respond { method := "GET", target := "/health/?" ++ q, headers := headers, body := body } =
      some { body := "Not Found\n", status := 404,
             headers := [("Content-Type", "text/plain")] } ∧
    Node.respond { method := "GET", target := "/health/", headers := headers, body := body } =
      some { body := "Not Found\n", status := 404,
             headers := [("Content-Type", "text/plain")] } ∧
    Node.respond { method := "GET", target := "/health/?" ++ q, headers := headers, body := body } =
      some { body := "Not Found\n", status := 404,
             headers := [("Content-Type", "text/plain")] } := by
  have hplain : ∀ s ∈ ["health", ""], isPlainSegment s = true := by decide
  have hfirst : ∀ more, ["health", ""] = "" :: more → more = [] := by
    intro more h
    exact absurd (List.cons.inj h).1 (by decide)
  have hq : targetOf ["health", ""] (some q) = "/health/?" ++ q := rfl
  have h0 : targetOf ["health", ""] none = "/health/" := rfl
  have hb := bun_respond_targetOf "GET" headers body ["health", ""] (some q) (by simp) hplain
  have hb0 := bun_respond_targetOf "GET" headers body ["health", ""] none (by simp) hplain
  have hn := node_respond_targetOf "GET" headers body ["health", ""] (some q) (by simp) hplain
    hfirst
  have hn0 := node_respond_targetOf "GET" headers body ["health", ""] none (by simp) hplain hfirst
  rw [hq, if_neg (by decide)] at hb hn
  rw [h0, if_neg (by decide)] at hb0 hn0
  exact ⟨hb0, hb, hn0, hn⟩

/-- C6: the path match is case-sensitive. For every target that differs from
`/health` in letter case only, neither parser folds the case (both report the
target itself as the path), and a `GET` for it is answered in both variants
with the 404 response `Not Found\n`. -/
theorem health_case_variant_not_found (target : String) (headers : Headers) (body : String)
    (hcase : target.toList.map Char.toLower = "/health".toList)
    (hne : target ≠ "/health") :
    WHATWG.newURL ("http://localhost:8080" ++ target) = some { pathname := target } ∧
    Legacy.urlParse target true = some { pathname := some target } ∧
    Bun.respond { method := "GET", target := target, headers := headers, body := body } =
      some { body := "Not Found\n", status := 404,
             headers := [("Content-Type", "text/plain")] } ∧
    Node.respond { method := "GET", target := target, headers := headers, body := body } =
      some { body := "Not Found\n", status := 404,
             headers := [("Content-Type", "text/plain")] } := by
  obtain ⟨chars⟩ := target
  simp only [String.toList] at hcase
  cases chars with
  | nil => exact absurd hcase (by decide)
  | cons c word =>
    rw [List.map_cons] at hcase
    have hc : c = '/' := toLower_eq_slash (List.cons.inj hcase).1
    have hword : word.map Char.toLower = ['h', 'e', 'a', 'l', 't', 'h'] := (List.cons.inj hcase).2
    subst hc
    have hplainChars : ∀ x ∈ word, isPlainPathChar x = true := by
      intro x hx
      apply plain_of_toLower
      have hmem : x.toLower ∈ word.map Char.toLower := List.mem_map_of_mem _ hx
      rw [hword] at hmem
      revert hmem
      generalize x.toLower = y
      revert y
      decide
    have hplain : ∀ s ∈ [String.mk word], isPlainSegment s = true := by
      intro s hs
      rw [List.mem_singleton] at hs
      subst hs
      simp only [isPlainSegment, WHATWG.isSingleDot, WHATWG.isDoubleDot, String.toList, hword,
        Bool.and_eq_true, List.all_eq_true]
      exact ⟨⟨hplainChars, by decide⟩, by decide⟩
    have hfirst : ∀ more, [String.mk word] = "" :: more → more = [] := by
      intro more h
      exact (List.cons.inj h).2.symm
    have htarget : targetOf [String.mk word] none = String.mk ('/' :: word) := by
      simp [targetOf, pathOf]
    have hpath : pathOf [String.mk word] = String.mk ('/' :: word) := by
      simp [pathOf]
    have hb := bun_respond_targetOf "GET" headers body [String.mk word] none (by simp) hplain
    have hn := node_respond_targetOf "GET" headers body [String.mk word] none (by simp) hplain
      hfirst
    have hu := newURL_targetOf [String.mk word] none (by simp) hplain
    have hl := urlParse_targetOf [String.mk word] none (by simp) hplain hfirst
    rw [htarget, hpath] at hb hn hu hl
    rw [if_neg (fun h => hne h.1)] at hb hn
    exact ⟨hu, hl, hb, hn⟩

/-- Witness of C6: the target `/HEALTH`. -/
theorem health_case_variant_not_found_witness :
    Bun.respond { method := "GET", target := "/HEALTH", headers := [], body := "" } =
      some { body := "Not Found\n", status := 404,
             headers := [("Content-Type", "text/plain")] } ∧
    Node.respond { method := "GET", target := "/HEALTH", headers := [], body := "" } =
      some { body := "Not Found\n", status := 404,
             headers := [("Content-Type", "text/plain")] } :=
  (health_case_variant_not_found "/HEALTH" [] "" (by decide) (by decide)).2.2

/-- C7: a wrong method on an existing route is not told apart from an unknown
route. In both variants a request whose method is not `GET` (whatever its
path is, `/health` included) gets exactly the response of a request, such as
a `GET`, whose path is not `/health`: status 404, the single header
`Content-Type: text/plain`, body `Not Found\n`. The status is not 405 and
there is no `Allow` header. -/
theorem wrong_method_same_as_unknown_route
    (newURL : String → Option URL) (urlParse : String → Bool → Option UrlObject)
    (wrong unknown : Request) (hwrong : wrong.method ≠ "GET") :
    (∀ url url' : URL, newURL wrong.url = some url → newURL unknown.url = some url' →
      url'.pathname ≠ "/health" →
      Bun.fetch newURL wrong = Bun.fetch newURL unknown ∧
      Bun.fetch newURL wrong =
        some { body := "Not Found\n", status := 404,
               headers := [("Content-Type", "text/plain")] }) ∧
    (∀ parsed parsed' : UrlObject, urlParse wrong.url true = some parsed →
      urlParse unknown.url true = some parsed' → parsed'.pathname ≠ some "/health" →
      (∀ res : ServerResponse,
        Node.requestListener urlParse wrong res = Node.requestListener urlParse unknown res) ∧
      (Node.requestListener urlParse wrong ServerResponse.fresh).bind ServerResponse.sent =
        some { body := "Not Found\n", status := 404,
               headers := [("Content-Type", "text/plain")] }) ∧
    (∀ resp : Response,
      (Bun.fetch newURL wrong = some resp ∨
        (Node.requestListener urlParse wrong ServerResponse.fresh).bind ServerResponse.sent =
          some resp) →
      resp.status ≠ 405 ∧ ∀ header ∈ resp.headers, header.1 ≠ "Allow") := by
  refine ⟨?_, ?_, ?_⟩
  · intro url url' h h' hpath
    simp [Bun.fetch, h, h', hpath, hwrong]
  · intro parsed parsed' h h' hpath
    simp [Node.requestListener, ServerResponse.writeHead, ServerResponse.end_,
      ServerResponse.sent, ServerResponse.fresh, h, h', hpath, hwrong]
  · intro resp h
    have hresp : some resp =
        some (Response.mk "Not Found\n" 404 [("Content-Type", "text/plain")]) := by
      rcases h with h | h
      · rw [← h]
        unfold Bun.fetch
        split
        · rename_i hnone
          rw [Bun.fetch, hnone] at h
          exact absurd h (by simp)
        · simp [hwrong]
      · rw [← h]
        unfold Node.requestListener
        split
        · rename_i hnone
          rw [Node.requestListener, hnone] at h
          exact absurd h (by simp)
        · simp [hwrong, ServerResponse.writeHead, ServerResponse.end_, ServerResponse.sent,
            ServerResponse.fresh]
    cases hresp
    decide

/-- Witness of C7: `POST /health` against `GET /`, with the two parser
models. -/
theorem wrong_method_same_as_unknown_route_witness :
    Bun.fetch WHATWG.newURL
        { method := "POST", url := "http://localhost:8080/health", headers := [], body := "" } =
      Bun.fetch WHATWG.newURL
        { method := "GET", url := "http://localhost:8080/", headers := [], body := "" } ∧
    (Node.requestListener Legacy.urlParse
        { method := "POST", url := "/health", headers := [], body := "" }
        ServerResponse.fresh).bind ServerResponse.sent =
      some { body := "Not Found\n", status := 404,
             headers := [("Content-Type", "text/plain")] } :=
  ⟨((wrong_method_same_as_unknown_route WHATWG.newURL Legacy.urlParse
      { method := "POST", url := "http://localhost:8080/health", headers := [], body := "" }
      { method := "GET", url := "http://localhost:8080/", headers := [], body := "" }
      (by decide)).1 { pathname := "/health" } { pathname := "/" }
      (by decide) (by decide) (by decide)).1,
   ((wrong_method_same_as_unknown_route WHATWG.newURL Legacy.urlParse
      { method := "POST", url := "/health", headers := [], body := "" }
      { method := "GET", url := "/", headers := [], body := "" }
      (by decide)).2.1 { pathname := some "/health" } { pathname := some "/" }
      (by decide) (by decide) (by decide)).2⟩

/-- C8, refuted as stated: `fetch` does not return a `Response` for every
request. For the request URL `http://localhost:99999/health` the port is out
of range, the `URL` constructor gives no URL object (it throws), and `fetch`
returns nothing: no `Response` at all. -/
theorem no_response_when_url_rejected :
    WHATWG.newURL "http://localhost:99999/health" = none ∧
    Bun.fetch WHATWG.newURL
        { method := "GET", url := "http://localhost:99999/health", headers := [], body := "" } =
      none ∧
    ¬ ∃ resp : Response,
      Bun.fetch WHATWG.newURL
          { method := "GET", url := "http://localhost:99999/health", headers := [],
            body := "" } =
        some resp := by
  refine ⟨by decide, by decide, ?_⟩
  rintro ⟨resp, h⟩
  have hnone : Bun.fetch WHATWG.newURL
      { method := "GET", url := "http://localhost:99999/health", headers := [], body := "" } =
      none := by decide
  rw [hnone] at h
  exact absurd h (by simp)

/-- C8, amended: each request whose URL the parser accepts gets exactly one
response. Whenever `url.parse` returns, the Node callback makes exactly one
`writeHead` call followed by exactly one `end` call on `res`, after whatever
was called on it before; whenever the `URL` constructor returns, `fetch`
returns exactly one `Response`. For every request target that starts with
`/`, on the listener's address, the constructor does return, and so does
`url.parse` unless the target starts with `//` or `/\`; so each such request
gets its one response. -/
theorem one_response_per_request :
    (∀ (urlParse : String → Bool → Option UrlObject) (req : Request) (parsedUrl : UrlObject)
        (res : ServerResponse),
      urlParse req.url true = some parsedUrl →
      ∃ statusCode headers data,
        Node.requestListener urlParse req res =
          some { calls := res.calls ++
            [ResCall.writeHead statusCode headers, ResCall.end_ data] }) ∧
    (∀ (newURL : String → Option URL) (req : Request) (url : URL),
      newURL req.url = some url → ∃! resp, Bun.fetch newURL req = some resp) ∧
    (∀ (w : WireRequest) (rest : List Char), w.target.toList = '/' :: rest →
      (∃! resp, Bun.respond w = some resp) ∧
      ((∀ c cs, rest = c :: cs → c ≠ '/' ∧ c ≠ '\\') →
        ∃! resp, Node.respond w = some resp)) := by
  have hnode : ∀ (urlParse : String → Bool → Option UrlObject) (req : Request)
      (parsedUrl : UrlObject) (res : ServerResponse),
      urlParse req.url true = some parsedUrl →
      ∃ statusCode headers data,
        Node.requestListener urlParse req res =
          some { calls := res.calls ++
            [ResCall.writeHead statusCode headers, ResCall.end_ data] } := by
    intro urlParse req parsedUrl res hparse
    simp only [Node.requestListener, hparse]
    split
    · exact ⟨200, [("Content-Type", "text/plain")], "OK\n", by
        simp [Node.healthHandler, ServerResponse.writeHead, ServerResponse.end_]⟩
    · exact ⟨404, [("Content-Type", "text/plain")], "Not Found\n", by
        simp [ServerResponse.writeHead, ServerResponse.end_]⟩
  have hbun : ∀ (newURL : String → Option URL) (req : Request) (url : URL),
      newURL req.url = some url → ∃! resp, Bun.fetch newURL req = some resp := by
    intro newURL req url hparse
    simp only [Bun.fetch, hparse]
    split
    · exact ⟨_, rfl, fun y hy => (Option.some.inj hy).symm⟩
    · exact ⟨_, rfl, fun y hy => (Option.some.inj hy).symm⟩
  refine ⟨hnode, hbun, ?_⟩
  intro w rest htarget
  refine ⟨?_, ?_⟩
  · obtain ⟨url, hurl⟩ := newURL_isSome_of_slash w.target rest htarget
    exact hbun WHATWG.newURL (Bun.incoming w) url hurl
  · intro hsecond
    obtain ⟨parsedUrl, hparsed⟩ := urlParse_isSome_of_single_slash w.target rest htarget hsecond
    obtain ⟨statusCode, headers, data, hcalls⟩ :=
      hnode Legacy.urlParse (Node.incoming w) parsedUrl ServerResponse.fresh hparsed
    have hsent : Node.respond w =
        some { body := data, status := statusCode, headers := headers } := by
      unfold Node.respond
      rw [hcalls]
      rfl
    exact ⟨_, hsent, fun y hy => Option.some.inj (hy.symm.trans hsent)⟩

/-- Witness of C8 (amended): `GET /` on Node and on Bun. -/
theorem one_response_per_request_witness :
    (∃ statusCode headers data,
      Node.requestListener Legacy.urlParse
          { method := "GET", url := "/", headers := [], body := "" } ServerResponse.fresh =
        some { calls := ServerResponse.fresh.calls ++
          [ResCall.writeHead statusCode headers, ResCall.end_ data] }) ∧
    (∃! resp, Bun.fetch WHATWG.newURL
      { method := "GET", url := "http://localhost:8080/", headers := [], body := "" } =
        some resp) ∧
    (∃! resp, Node.respond { method := "GET", target := "/", headers := [], body := "" } =
      some resp) :=
  ⟨one_response_per_request.1 Legacy.urlParse
      { method := "GET", url := "/", headers := [], body := "" } { pathname := some "/" }
      ServerResponse.fresh (by decide),
   one_response_per_request.2.1 WHATWG.newURL
      { method := "GET", url := "http://localhost:8080/", headers := [], body := "" }
      { pathname := "/" } (by decide),
   ((one_response_per_request.2.2
      { method := "GET", target := "/", headers := [], body := "" } [] (by decide)).2
      (fun c cs h => absurd h (by simp)))⟩

/-- C9: the response is a function of the method and the parsed path only.
Two requests with the same method whose URLs parse to the same path get the
same result from `fetch` and make the callback perform the same calls on
`res`, whatever their headers, bodies and query strings are; and every
response carries exactly the header `Content-Type: text/plain`. -/
theorem response_determined_by_method_and_path
    (newURL : String → Option URL) (urlParse : String → Bool → Option UrlObject)
    (req₁ req₂ : Request) (hmethod : req₁.method = req₂.method) :
    (∀ url₁ url₂ : URL, newURL req₁.url = some url₁ → newURL req₂.url = some url₂ →
      url₁.pathname = url₂.pathname →
      Bun.fetch newURL req₁ = Bun.fetch newURL req₂) ∧
    (∀ parsed₁ parsed₂ : UrlObject, urlParse req₁.url true = some parsed₁ →
      urlParse req₂.url true = some parsed₂ → parsed₁.pathname = parsed₂.pathname →
      ∀ res : ServerResponse,
        Node.requestListener urlParse req₁ res = Node.requestListener urlParse req₂ res) ∧
    (∀ resp : Response, Bun.fetch newURL req₁ = some resp →
      resp.headers = [("Content-Type", "text/plain")]) ∧
    (∀ resp : Response,
      (Node.requestListener urlParse req₁ ServerResponse.fresh).bind ServerResponse.sent =
        some resp →
      resp.headers = [("Content-Type", "text/plain")]) := by
  refine ⟨?_, ?_, ?_, ?_⟩
  · intro url₁ url₂ h₁ h₂ hpath
    simp [Bun.fetch, h₁, h₂, hpath, hmethod]
  · intro parsed₁ parsed₂ h₁ h₂ hpath res
    simp [Node.requestListener, Node.healthHandler, h₁, h₂, hpath, hmethod]
  · intro resp h
    unfold Bun.fetch at h
    split at h
    · exact absurd h (by simp)
    · split at h <;> (simp at h; subst h; rfl)
  · intro resp h
    unfold Node.requestListener at h
    split at h
    · exact absurd h (by simp)
    · split at h <;>
        (simp [Node.healthHandler, ServerResponse.writeHead, ServerResponse.end_,
          ServerResponse.sent, ServerResponse.fresh] at h; subst h; rfl)

/-- Witness of C9: two `GET /health` requests that differ in query string,
headers and body. -/
theorem response_determined_by_method_and_path_witness :
    Bun.fetch WHATWG.newURL
        { method := "GET", url := "http://localhost:8080/health?a=1",
          headers := [("Accept", "text/html")], body := "ping" } =
      Bun.fetch WHATWG.newURL
        { method := "GET", url := "http://localhost:8080/health?b=2",
          headers := [], body := "" } ∧
    Node.requestListener Legacy.urlParse
        { method := "GET", url := "/health?a=1",
          headers := [("Accept", "text/html")], body := "ping" } ServerResponse.fresh =
      Node.requestListener Legacy.urlParse
        { method := "GET", url := "/health?b=2", headers := [], body := "" }
        ServerResponse.fresh :=
  ⟨(response_determined_by_method_and_path WHATWG.newURL Legacy.urlParse
      { method := "GET", url := "http://localhost:8080/health?a=1",
        headers := [("Accept", "text/html")], body := "ping" }
      { method := "GET", url := "http://localhost:8080/health?b=2", headers := [], body := "" }
      rfl).1 { pathname := "/health" } { pathname := "/health" } (by decide) (by decide) rfl,
   (response_determined_by_method_and_path WHATWG.newURL Legacy.urlParse
      { method := "GET", url := "/health?a=1",
        headers := [("Accept", "text/html")], body := "ping" }
      { method := "GET", url := "/health?b=2", headers := [], body := "" }
      rfl).2.1 { pathname := some "/health" } { pathname := some "/health" }
      (by decide) (by decide) rfl ServerResponse.fresh⟩

/-- C10: both scripts bind port 8080 and log exactly one start-up line, whose
address `http://localhost:8080` names the bound port. In the Node script the
bound port and the port in the line are both the constant `PORT`; in the Bun
script the literal in the line agrees with the literal given as `port`. -/
theorem startup_port_and_message :
    Node.PORT = 8080 ∧
    Node.main =
      [Effect.listen Node.PORT,
       Effect.log ("Server listening on http://localhost:" ++ toString Node.PORT)] ∧
    Node.main =
      [Effect.listen 8080, Effect.log "Server listening on http://localhost:8080"] ∧
    Bun.main =
      [Effect.listen 8080,
       Effect.log ("Server running at http://localhost:" ++ toString 8080)] ∧
    Bun.main =
      [Effect.listen 8080, Effect.log "Server running at http://localhost:8080"] := by
  refine ⟨rfl, rfl, ?_, ?_, rfl⟩ <;> decide

end HealthServer
